import Mathlib

/-!
Verification development for the PupPulse veterinary data pipeline
(`src/Vet_chatbot/src/extractor.py` and `src/Vet_chatbot/src/processor.py`).

The two Python modules are shallowly embedded below.  Strings are Lean
`String`s and all character-level operations are done on `List Char`
(every text appearing in the pipeline and in the claims is ASCII, where
Python's `str.lower`, `str.strip`, `str.isalpha` agree with the
character-wise functions defined here).  Python `dict`s with a fixed
schema become structures; the metadata dict handled generically by the
processor becomes an insertion-ordered association list.
-/

/-- Character-wise lowercasing of a character list (Python `str.lower`
restricted to ASCII, which covers every keyword and text in this code). -/
def lowerL (cs : List Char) : List Char := cs.map Char.toLower

/-- Python `str.lower` for ASCII strings. -/
def lowerStr (s : String) : String := String.mk (lowerL s.toList)

/-- Does `cs` start with `pat`? (helper for substring search). -/
def startsWithL : List Char → List Char → Bool
  | _, [] => true
  | [], _ :: _ => false
  | c :: cs, p :: ps => c == p && startsWithL cs ps

/-- Substring test on character lists: `hasInfix text pat` is Python
`pat in text`. -/
def hasInfix (text pat : List Char) : Bool :=
  match text with
  | [] => pat.isEmpty
  | _ :: rest => startsWithL text pat || hasInfix rest pat

/-- Python `pat in s` on strings. -/
def containsStr (s pat : String) : Bool := hasInfix s.toList pat.toList

/-- Python `any(k in s for k in kws)`. -/
def containsAny (s : String) (kws : List String) : Bool :=
  kws.any (fun k => containsStr s k)

/-- Whitespace characters stripped by Python `str.strip` that can occur
in this pipeline's inputs. -/
def isSpaceCh (c : Char) : Bool := c == ' ' || c == '\t' || c == '\n' || c == '\r'

/-- Python `str.strip` on a character list. -/
def trimL (cs : List Char) : List Char :=
  ((cs.dropWhile isSpaceCh).reverse.dropWhile isSpaceCh).reverse

/-- Python `' '.join` on a list of strings, at the character level. -/
def joinSp : List String → List Char
  | [] => []
  | [s] => s.toList
  | s :: rest => s.toList ++ ' ' :: joinSp rest

/-- Python `' '.join(sentences)`. -/
def joinSpace (ss : List String) : String := String.mk (joinSp ss)

/-- Python `text.split('.')`, via an auxiliary returning the first
fragment and the remaining fragments. -/
def splitDotP : List Char → List Char × List (List Char)
  | [] => ([], [])
  | c :: rest =>
    if c = '.' then ([], (splitDotP rest).1 :: (splitDotP rest).2)
    else (c :: (splitDotP rest).1, (splitDotP rest).2)

/-- Python `text.split('.')` on a character list: the list of
(possibly empty) fragments between the dots. -/
def splitDot (cs : List Char) : List (List Char) :=
  (splitDotP cs).1 :: (splitDotP cs).2

/-- Python `'. '.join` on a list of character-list fragments. -/
def joinDS : List (List Char) → List Char
  | [] => []
  | [t] => t
  | t :: ts => t ++ '.' :: ' ' :: joinDS ts

/-- A question/answer pair (`{"question": ..., "answer": ...}` dict in
the Python code). -/
structure QAPair where
  question : String
  answer : String
deriving DecidableEq, Repr

/-- The `metadata` dict assembled by `VetDataExtractor.create_qa_pair`. -/
structure ChunkMetadata where
  tags : List String
  context : String
  source_type : String
  confidence : String
deriving DecidableEq, Repr

/-- One processed chunk as assembled by `VetDataExtractor.create_qa_pair`. -/
structure ChunkRecord where
  source_text : String
  qa_pairs : List QAPair
  metadata : ChunkMetadata
deriving DecidableEq, Repr

/-- `VetDataExtractor.symptoms_keywords` (a Python `set`; only
membership tests are performed on it, so a list is a faithful model). -/
def symptoms_keywords : List String :=
  ["symptom", "sign", "clinical presentation", "manifestation",
   "indication", "presenting complaint"]

/-- `VetDataExtractor.treatment_keywords`. -/
def treatment_keywords : List String :=
  ["treat", "treatment", "manage", "therapy", "intervention",
   "prescription", "medication", "remedy"]

/-- `VetDataExtractor.species_mapping` (an insertion-ordered Python dict). -/
def species_mapping : List (String × List String) :=
  [("dog", ["canine", "puppy", "dog"]),
   ("cat", ["feline", "kitten", "cat"]),
   ("bird", ["avian", "parrot", "parakeet"]),
   ("rabbit", ["bunny", "rabbit", "hare"]),
   ("hamster", ["hamster", "gerbil", "rodent"])]

/-- `VetDataExtractor.generate_qa`: emit the symptom, treatment and
prevention question (in that order) when the corresponding keywords
occur in the lowercased text; every answer is the full chunk text. -/
def generate_qa (text : String) : List QAPair :=
  let tl := lowerStr text
  (if containsAny tl symptoms_keywords then
    [⟨"What are the symptoms or signs that might indicate this condition?", text⟩]
   else []) ++
  (if containsAny tl treatment_keywords then
    [⟨"What are the recommended treatment approaches or management strategies?", text⟩]
   else []) ++
  (if containsStr tl "prevent" || containsStr tl "prevention" then
    [⟨"What preventive measures or precautions should be taken?", text⟩]
   else [])

/-- `VetDataExtractor.extract_tags`, as the contents of the Python set
`tags` listed in insertion order (species in table order, then
`symptoms`, then `treatment`).  The Python function returns
`list(tags)`, whose element order is chosen by the interpreter's set
iteration; `extract_tags_with` below threads that choice explicitly. -/
def extract_tags (text : String) : List String :=
  let tl := lowerStr text
  ((species_mapping.filter (fun sk => sk.2.any (fun k => containsStr tl k))).map
    (fun sk => sk.1)) ++
  (if containsAny tl symptoms_keywords then ["symptoms"] else []) ++
  (if containsAny tl treatment_keywords then ["treatment"] else [])

/-- `VetDataExtractor.extract_tags` with the interpreter's set-iteration
order made explicit: `e` is the enumeration the runtime uses to turn
the Python set into a list (CPython's order depends on the process's
string-hash seed; a faithful model only promises that `e l` is a
permutation of `l`). -/
def extract_tags_with (e : List String → List String) (text : String) : List String :=
  e (extract_tags text)

/-- `VetDataExtractor._calculate_confidence`. -/
def calculate_confidence (text : String) : String :=
  if text.length < 100 then "low"
  else if text.length > 500 &&
      containsAny (lowerStr text) (symptoms_keywords ++ treatment_keywords) then "high"
  else "medium"

/-- `VetDataExtractor._is_chunk_complete`. -/
def is_chunk_complete (chunk : List String) : Bool :=
  let text := joinSpace chunk
  if text.length > 1000 then true
  else
    match (trimL text.toList).getLast? with
    | some c => c == '.' || c == '!' || c == '?'
    | none => false

/-- Modelled from the spec: `determine_context` is called by
`VetDataExtractor.create_qa_pair` but never defined anywhere in the
source; the spec (§3, §9) treats it as an unspecified placeholder and
suggests the constant `"general"`, which is what we adopt. -/
def determine_context (_text : String) : String := "general"

/-- `VetDataExtractor.create_qa_pair`, with the set-enumeration `e`
used for `list(tags)` threaded through (see `extract_tags_with`). -/
def create_qa_pair_with (e : List String → List String)
    (sentences : List String) : Option ChunkRecord :=
  let text := joinSpace sentences
  if text.length < 50 then none
  else
    let qa := generate_qa text
    if qa = [] then none
    else some
      { source_text := text
        qa_pairs := qa
        metadata :=
          { tags := extract_tags_with e text
            context := determine_context text
            source_type := "textbook"
            confidence := calculate_confidence text } }

/-- `VetDataExtractor.create_qa_pair` with the canonical (insertion
order) enumeration of the tag set. -/
def create_qa_pair (sentences : List String) : Option ChunkRecord :=
  create_qa_pair_with id sentences

/-- The sentence filter of `VetDataExtractor.process_text`: keep a
sentence iff its stripped length is at least 10 and it contains an
alphabetic character. -/
def sentence_ok (s : String) : Bool :=
  !(decide ((trimL s.toList).length < 10)) && s.toList.any Char.isAlpha

/-- The sentence-accumulation loop of `VetDataExtractor.process_text`:
first argument is the running `current_chunk` buffer, second the
remaining sentences.  (The Python loop drops a non-completed trailing
buffer, as does this model.) -/
def processLoop_with (e : List String → List String) :
    List String → List String → List ChunkRecord
  | _, [] => []
  | buf, s :: rest =>
    if sentence_ok s then
      if is_chunk_complete (buf ++ [s]) then
        match create_qa_pair_with e (buf ++ [s]) with
        | some r => r :: processLoop_with e [] rest
        | none => processLoop_with e [] rest
      else processLoop_with e (buf ++ [s]) rest
    else processLoop_with e buf rest

/-- `VetDataExtractor.process_text`, consuming the ordered sentence
list produced by the external segmentation collaborator, with explicit
set enumeration `e`. -/
def process_sentences_with (e : List String → List String)
    (sentences : List String) : List ChunkRecord :=
  processLoop_with e [] sentences

/-- `VetDataExtractor.process_text` with the canonical enumeration. -/
def process_sentences (sentences : List String) : List ChunkRecord :=
  process_sentences_with id sentences

/-- `VetDataProcessor.categories` (an insertion-ordered Python dict). -/
def categories : List (String × List String) :=
  [("diseases", ["symptom", "disease", "condition", "infection"]),
   ("behavior", ["behavior", "training", "anxiety", "stress"]),
   ("emergency", ["emergency", "urgent", "immediate", "critical"]),
   ("preventive", ["prevent", "vaccination", "nutrition", "diet"]),
   ("breeds", ["breed", "purebred", "mixed breed"])]

/-- The first-match loop of `VetDataProcessor.categorize_content`
(processor.py lines 114-124): return the first table entry one of
whose keywords occurs in the text, else the default. -/
def firstCategory (tl : String) : List (String × List String) → String
  | [] => "general"
  | ck :: rest => if containsAny tl ck.2 then ck.1 else firstCategory tl rest

/-- `VetDataProcessor.categorize_content` (the keyword-table method at
processor.py lines 114-124; the second, regex-based method of the same
name further down the file is mis-indented and does not parse — the
spec (§2, §9) records it as a non-compiling fragment). -/
def categorize_content (text : String) : String :=
  firstCategory (lowerStr text) categories

/-- `VetDataProcessor.generate_question_variations`. -/
def generate_question_variations (question : String) (answer : String) : List QAPair :=
  if containsStr (lowerStr question) "symptoms" then
    [⟨"What signs should I look out for?", answer⟩,
     ⟨"How can I tell if my pet has this condition?", answer⟩]
  else []

/-- Does a `text.split('.')` fragment contain a treatment keyword
(the filter inside `VetDataProcessor.extract_treatment_info`)? -/
def fragMatchesT (f : List Char) : Bool :=
  (["treat", "medication", "therapy"] : List String).any
    (fun w => hasInfix (lowerL f) w.toList)

/-- `VetDataProcessor.extract_treatment_info`: split on `.`, keep the
fragments containing a treatment keyword, rejoin with `. ` and a
trailing `.`; empty string when no fragment matches. -/
def extract_treatment_info (text : String) : String :=
  if ((splitDot text.toList).filter fragMatchesT).isEmpty then ""
  else String.mk (joinDS ((splitDot text.toList).filter fragMatchesT) ++ ['.'])

/-- The fragment filter inside `VetDataProcessor.extract_prevention_info`. -/
def fragMatchesP (f : List Char) : Bool :=
  (["prevent", "avoid", "reduce"] : List String).any
    (fun w => hasInfix (lowerL f) w.toList)

/-- `VetDataProcessor.extract_prevention_info`. -/
def extract_prevention_info (text : String) : String :=
  if ((splitDot text.toList).filter fragMatchesP).isEmpty then ""
  else String.mk (joinDS ((splitDot text.toList).filter fragMatchesP) ++ ['.'])

/-- `VetDataProcessor.generate_followup_questions`: a treatment
follow-up when the lowercased answer contains a treatment keyword, then
a prevention follow-up when it contains a prevention trigger. -/
def generate_followup_questions (_question : String) (answer : String) : List QAPair :=
  (if containsAny (lowerStr answer) ["treat", "medication", "therapy"] then
    [⟨"What are the treatment options?", extract_treatment_info answer⟩]
   else []) ++
  (if containsAny (lowerStr answer) ["prevent", "avoid", "reduce risk"] then
    [⟨"How can this be prevented?", extract_prevention_info answer⟩]
   else [])

/-- `VetDataProcessor.enhance_qa_pairs`: the Python loop appends, for
each pair, the pair itself, its variations and its follow-ups to the
growing `enhanced_pairs` accumulator — a left fold. -/
def enhance_qa_pairs (qa_pairs : List QAPair) : List QAPair :=
  qa_pairs.foldl
    (fun acc qa =>
      acc ++ [qa] ++ generate_question_variations qa.question qa.answer ++
        generate_followup_questions qa.question qa.answer)
    []

/-- Per-pair expansion as the spec words it (§4.2): the original pair,
then its variations, then its follow-ups, concatenated over the input
in order.  Stated from the spec, to be compared with the accumulator
loop `enhance_qa_pairs` taken from the source. -/
def enrichQAPairs_spec : List QAPair → List QAPair
  | [] => []
  | qa :: rest =>
    (qa :: (generate_question_variations qa.question qa.answer ++
      generate_followup_questions qa.question qa.answer)) ++ enrichQAPairs_spec rest

/-- A metadata value: the pipeline's metadata dicts hold strings
(`context`, `source_type`, `confidence`, ...) and one list of strings
(`tags`). -/
inductive MValue where
  | str (s : String)
  | strList (l : List String)
deriving DecidableEq, Repr

/-- Lookup in an insertion-ordered Python dict (`d[k]` / `d.get(k)`). -/
def dictLookup : List (String × MValue) → String → Option MValue
  | [], _ => none
  | kv :: rest, k => if kv.1 = k then some kv.2 else dictLookup rest k

/-- Python dict assignment `d[k] = v`: overwrite the value in place
when the key exists, else append the new key at the end. -/
def dictSet : List (String × MValue) → String → MValue → List (String × MValue)
  | [], k, v => [(k, v)]
  | kv :: rest, k, v =>
    if kv.1 = k then (k, v) :: rest else kv :: dictSet rest k v

/-- `metadata.get('tags', [])` as used by `enhance_metadata`: the tag
list when the key holds one, `[]` when the key is absent.  (The
processor's type annotations fix `tags : List[str]`; a non-list value
never occurs in the pipeline and is not modelled.) -/
def getTags (md : List (String × MValue)) : List String :=
  match dictLookup md "tags" with
  | some (.strList l) => l
  | _ => []

/-- `VetDataProcessor.determine_complexity`. -/
def determine_complexity (tags : List String) : String :=
  if tags.any (fun t => (["emergency", "critical", "urgent"] : List String).contains t) then
    "high"
  else if tags.any (fun t => (["medical", "clinical", "diagnostic"] : List String).contains t) then
    "medium"
  else "basic"

/-- `VetDataProcessor.determine_content_type`. -/
def determine_content_type (tags : List String) : String :=
  if tags.contains "emergency" then "emergency"
  else if tags.contains "medical" then "medical"
  else if tags.contains "behavior" then "behavioral"
  else "general"

/-- `VetDataProcessor.enhance_metadata`: copy the input dict, then set
`complexity` and `content_type` from the original dict's tags. -/
def enhance_metadata (md : List (String × MValue)) : List (String × MValue) :=
  dictSet
    (dictSet md "complexity" (.str (determine_complexity (getTags md))))
    "content_type" (.str (determine_content_type (getTags md)))

/-- The metadata dict of a ChunkRecord as serialized by the extractor
and read back by the processor (`entry['metadata']`). -/
def extractor_metadata_dict (tags : List String) (ctx conf : String) :
    List (String × MValue) :=
  [("tags", .strList tags), ("context", .str ctx),
   ("source_type", .str "textbook"), ("confidence", .str conf)]

/-- What `text.split('.')` gives back on `'. '.join(ts) + '.'`: the
first kept fragment, the later kept fragments each with the leading
space contributed by the `'. '` separator, and a final empty fragment
from the trailing dot. -/
def rejoinFrags : List (List Char) → List (List Char)
  | [] => [[], []]
  | t :: rest => t :: (rest.map (fun f => ' ' :: f) ++ [[]])

/-- Re-enumerate the tags of a record: the effect on a finished record
of running the pipeline under set-enumeration `e` instead of the
canonical one. -/
def mapRecTags (e : List String → List String) (r : ChunkRecord) : ChunkRecord :=
  { r with metadata := { r.metadata with tags := e r.metadata.tags } }

/-- Two chunk records that agree everywhere except possibly in the
order of their tag lists. -/
def sameUpToTagOrder (r r' : ChunkRecord) : Prop :=
  r.source_text = r'.source_text ∧ r.qa_pairs = r'.qa_pairs ∧
  r.metadata.context = r'.metadata.context ∧
  r.metadata.source_type = r'.metadata.source_type ∧
  r.metadata.confidence = r'.metadata.confidence ∧
  r.metadata.tags.Perm r'.metadata.tags

/-- Every tag `extract_tags` can ever produce: the five species keys of
`species_mapping` followed by `symptoms` and `treatment`. -/
def allowedTags : List String :=
  ["dog", "cat", "bird", "rabbit", "hamster", "symptoms", "treatment"]

/-! ### Helper lemmas -/

/-- A substring of `l` is a substring of `c :: l`. -/
theorem hasInfix_cons (c : Char) (l p : List Char) (h : hasInfix l p = true) :
    hasInfix (c :: l) p = true := by
  rw [hasInfix]
  simp only [Bool.or_eq_true]
  exact Or.inr h

/-- A fragment containing a treatment keyword still contains it after
prepending a character. -/
theorem fragMatchesT_cons (c : Char) (u : List Char) (h : fragMatchesT u = true) :
    fragMatchesT (c :: u) = true := by
  rw [fragMatchesT, List.any_eq_true] at h ⊢
  obtain ⟨w, hw, hinf⟩ := h
  refine ⟨w, hw, ?_⟩
  have he : lowerL (c :: u) = Char.toLower c :: lowerL u := rfl
  rw [he]
  exact hasInfix_cons _ _ _ hinf

/-- No fragment produced by `splitDot` contains a dot. -/
theorem splitDotP_no_dot (cs : List Char) :
    '.' ∉ (splitDotP cs).1 ∧ ∀ f ∈ (splitDotP cs).2, '.' ∉ f := by
  induction cs with
  | nil => simp [splitDotP]
  | cons c rest ih =>
    by_cases hc : c = '.'
    · subst hc
      rw [splitDotP, if_pos rfl]
      refine ⟨by simp, ?_⟩
      intro f hf
      rcases List.mem_cons.mp hf with h | h
      · subst h; exact ih.1
      · exact ih.2 f h
    · rw [splitDotP, if_neg hc]
      refine ⟨?_, ih.2⟩
      intro hmem
      rcases List.mem_cons.mp hmem with h | h
      · exact hc h.symm
      · exact ih.1 h

/-- No fragment produced by `splitDot` contains a dot. -/
theorem splitDot_no_dot (cs : List Char) (f : List Char) (hf : f ∈ splitDot cs) :
    '.' ∉ f := by
  rcases List.mem_cons.mp hf with h | h
  · subst h; exact (splitDotP_no_dot cs).1
  · exact (splitDotP_no_dot cs).2 f h

/-- Splitting `t ++ '.' ++ rest` when `t` is dot-free yields `t`
followed by the fragments of `rest`. -/
theorem splitDotP_append_dot (t rest : List Char) (ht : '.' ∉ t) :
    splitDotP (t ++ '.' :: rest) = (t, splitDot rest) := by
  induction t with
  | nil =>
    rw [List.nil_append, splitDotP, if_pos rfl]
    rfl
  | cons c t' ih =>
    have hc : ¬(c = '.') := fun h => ht (List.mem_cons.mpr (Or.inl h.symm))
    have ht' : '.' ∉ t' := fun h => ht (List.mem_cons_of_mem c h)
    rw [List.cons_append, splitDotP, if_neg hc, ih ht']

/-- Splitting `'. '.join(ts) + '.'` on dots recovers `ts` up to the
spaces introduced by the `'. '` separator and a trailing empty
fragment. -/
theorem splitDot_rejoin (ts : List (List Char)) (h : ∀ t ∈ ts, '.' ∉ t) :
    splitDot (joinDS ts ++ ['.']) = rejoinFrags ts := by
  induction ts with
  | nil => decide
  | cons t ts' ih =>
    cases ts' with
    | nil =>
      have ht : '.' ∉ t := h t (List.mem_cons_self t [])
      show splitDot (t ++ '.' :: []) = rejoinFrags [t]
      rw [splitDot, splitDotP_append_dot t [] ht]
      rfl
    | cons t2 ts'' =>
      have ht : '.' ∉ t := h t (List.mem_cons_self t _)
      have h' : ∀ u ∈ t2 :: ts'', '.' ∉ u := fun u hu => h u (List.mem_cons_of_mem t hu)
      have e1 : joinDS (t :: t2 :: ts'') ++ ['.'] =
          t ++ '.' :: (' ' :: (joinDS (t2 :: ts'') ++ ['.'])) := by
        show (t ++ '.' :: ' ' :: joinDS (t2 :: ts'')) ++ ['.'] = _
        simp [List.append_assoc]
      rw [e1, splitDot, splitDotP_append_dot t _ ht]
      have ihh := ih h'
      rw [splitDot] at ihh
      rw [rejoinFrags] at ihh
      have h1 : (splitDotP (joinDS (t2 :: ts'') ++ ['.'])).1 = t2 :=
        (List.cons.injEq _ _ _ _ ▸ ihh).1
      have h2 : (splitDotP (joinDS (t2 :: ts'') ++ ['.'])).2 =
          ts''.map (fun f => ' ' :: f) ++ [[]] :=
        (List.cons.injEq _ _ _ _ ▸ ihh).2
      have e2 : splitDot (' ' :: (joinDS (t2 :: ts'') ++ ['.'])) =
          (' ' :: t2) :: (ts''.map (fun f => ' ' :: f) ++ [[]]) := by
        rw [splitDot, splitDotP, if_neg (by decide), h1, h2]
      rw [e2, rejoinFrags]
      simp

/-- Every fragment of the rejoined treatment extract is empty or
contains a treatment keyword. -/
theorem rejoinFrags_match (ts : List (List Char))
    (hts : ∀ t ∈ ts, fragMatchesT t = true) :
    ∀ f ∈ rejoinFrags ts, f = [] ∨ fragMatchesT f = true := by
  intro f hf
  cases ts with
  | nil =>
    rw [rejoinFrags] at hf
    rcases List.mem_cons.mp hf with h | h
    · exact Or.inl h
    · simp at h; exact Or.inl h
  | cons t1 rest =>
    rw [rejoinFrags] at hf
    rcases List.mem_cons.mp hf with h1 | h2
    · subst h1
      exact Or.inr (hts f (List.mem_cons_self f rest))
    · rcases List.mem_append.mp h2 with h3 | h4
      · rcases List.mem_map.mp h3 with ⟨u, hu, he⟩
        subst he
        exact Or.inr (fragMatchesT_cons ' ' u (hts u (List.mem_cons_of_mem t1 hu)))
      · simp at h4; exact Or.inl h4

/-- When the answer has a nonempty fragment containing no treatment
keyword, the treatment extract differs from the full answer. -/
theorem extract_treatment_info_ne_self (a : String)
    (h : (splitDot a.toList).any (fun f => !f.isEmpty && !fragMatchesT f) = true) :
    extract_treatment_info a ≠ a := by
  intro heq
  rw [extract_treatment_info] at heq
  by_cases hemp : ((splitDot a.toList).filter fragMatchesT).isEmpty = true
  · rw [if_pos hemp] at heq
    have ha : a.toList = [] := by rw [← heq]; decide
    rw [ha] at h
    simp [splitDot, splitDotP] at h
  · rw [if_neg hemp] at heq
    have ha : a.toList = joinDS ((splitDot a.toList).filter fragMatchesT) ++ ['.'] := by
      have := congrArg String.data heq
      exact this.symm
    have hdotfree : ∀ t ∈ (splitDot a.toList).filter fragMatchesT, '.' ∉ t :=
      fun t ht => splitDot_no_dot a.toList t (List.mem_of_mem_filter ht)
    have hsplit : splitDot a.toList =
        rejoinFrags ((splitDot a.toList).filter fragMatchesT) := by
      conv_lhs => rw [ha]
      exact splitDot_rejoin _ hdotfree
    rw [hsplit, List.any_eq_true] at h
    obtain ⟨f, hf, hpred⟩ := h
    rw [Bool.and_eq_true, Bool.not_eq_true', Bool.not_eq_true'] at hpred
    rcases rejoinFrags_match _ (fun t ht => List.of_mem_filter ht) f hf with h0 | hm
    · subst h0; simp at hpred
    · rw [hm] at hpred; exact Bool.noConfusion hpred.2

/-- Running `create_qa_pair` under a different set enumeration only
re-enumerates the tags of the produced record. -/
theorem create_qa_pair_with_eq (e : List String → List String) (ss : List String) :
    create_qa_pair_with e ss = (create_qa_pair ss).map (mapRecTags e) := by
  rw [create_qa_pair, create_qa_pair_with, create_qa_pair_with]
  by_cases h1 : (joinSpace ss).length < 50
  · simp [h1]
  · by_cases h2 : generate_qa (joinSpace ss) = []
    · simp [h1, h2]
    · simp [h1, h2, mapRecTags, extract_tags_with]

/-- Running the extraction loop under a different set enumeration only
re-enumerates the tags of each produced record. -/
theorem processLoop_with_eq (e : List String → List String) (ss : List String) :
    ∀ buf, processLoop_with e buf ss = (processLoop_with id buf ss).map (mapRecTags e) := by
  induction ss with
  | nil => intro buf; rfl
  | cons s rest ih =>
    intro buf
    rw [processLoop_with, processLoop_with]
    by_cases hok : sentence_ok s
    · rw [if_pos hok, if_pos hok]
      by_cases hcomp : is_chunk_complete (buf ++ [s])
      · rw [if_pos hcomp, if_pos hcomp, create_qa_pair_with_eq]
        cases hc : create_qa_pair (buf ++ [s]) with
        | none =>
          have hid : create_qa_pair_with id (buf ++ [s]) = none := hc
          rw [hid, ih []]
          rfl
        | some r =>
          have hid : create_qa_pair_with id (buf ++ [s]) = some r := hc
          rw [hid, ih []]
          rfl
      · rw [if_neg hcomp, if_neg hcomp]
        exact ih (buf ++ [s])
    · rw [if_neg hok, if_neg hok]
      exact ih buf

/-- A record in the output of the extraction loop was produced by a
successful `create_qa_pair` call. -/
theorem processLoop_mem_create (ss : List String) :
    ∀ (buf : List String) (r : ChunkRecord), r ∈ processLoop_with id buf ss →
      ∃ b, create_qa_pair b = some r := by
  induction ss with
  | nil => intro buf r h; rw [processLoop_with] at h; exact absurd h (List.not_mem_nil r)
  | cons s rest ih =>
    intro buf r h
    rw [processLoop_with] at h
    by_cases hok : sentence_ok s
    · rw [if_pos hok] at h
      by_cases hcomp : is_chunk_complete (buf ++ [s])
      · rw [if_pos hcomp] at h
        cases hc : create_qa_pair (buf ++ [s]) with
        | none =>
          have hid : create_qa_pair_with id (buf ++ [s]) = none := hc
          rw [hid] at h
          exact ih [] r h
        | some r' =>
          have hid : create_qa_pair_with id (buf ++ [s]) = some r' := hc
          rw [hid] at h
          rcases List.mem_cons.mp h with he | hm
          · subst he; exact ⟨buf ++ [s], hc⟩
          · exact ih [] r hm
      · rw [if_neg hcomp] at h
        exact ih (buf ++ [s]) r h
    · rw [if_neg hok] at h
      exact ih buf r h

/-- A record produced by `create_qa_pair` has a nonempty `qa_pairs`
list (an empty generation is turned into `none` before this point). -/
theorem create_qa_pair_qa_ne_nil (ss : List String) (r : ChunkRecord)
    (h : create_qa_pair ss = some r) : r.qa_pairs ≠ [] := by
  rw [create_qa_pair, create_qa_pair_with] at h
  by_cases h1 : (joinSpace ss).length < 50
  · rw [if_pos h1] at h; exact Option.noConfusion h
  · rw [if_neg h1] at h
    by_cases h2 : generate_qa (joinSpace ss) = []
    · rw [if_pos h2] at h; exact Option.noConfusion h
    · rw [if_neg h2] at h
      have := Option.some.inj h
      rw [← this]
      exact h2

/-- `extract_tags` always yields a sublist of the fixed tag vocabulary
`allowedTags` (species table order, then `symptoms`, `treatment`). -/
theorem extract_tags_sublist (text : String) :
    List.Sublist (extract_tags text) allowedTags := by
  rw [extract_tags]
  have hA : List.Sublist
      ((species_mapping.filter
        (fun sk => sk.2.any (fun k => containsStr (lowerStr text) k))).map
        (fun sk => sk.1))
      (species_mapping.map (fun sk => sk.1)) :=
    List.Sublist.map _ (List.filter_sublist _)
  have hmap : species_mapping.map (fun sk => sk.1) =
      ["dog", "cat", "bird", "rabbit", "hamster"] := rfl
  rw [hmap] at hA
  have hB : List.Sublist
      (if containsAny (lowerStr text) symptoms_keywords then ["symptoms"] else [])
      ["symptoms"] := by
    split
    · exact List.Sublist.refl _
    · exact List.nil_sublist _
  have hC : List.Sublist
      (if containsAny (lowerStr text) treatment_keywords then ["treatment"] else [])
      ["treatment"] := by
    split
    · exact List.Sublist.refl _
    · exact List.nil_sublist _
  exact List.Sublist.append (List.Sublist.append hA hB) hC

/-- The tag list is duplicate-free. -/
theorem extract_tags_nodup (text : String) : (extract_tags text).Nodup :=
  List.Nodup.sublist (extract_tags_sublist text) (by decide)

/-- Every extracted tag belongs to the fixed vocabulary. -/
theorem extract_tags_mem_allowed (text : String) (t : String)
    (h : t ∈ extract_tags text) : t ∈ allowedTags :=
  List.Sublist.subset (extract_tags_sublist text) h

/-- No keyword set disjoint from the tag vocabulary is ever hit by an
extracted tag list. -/
theorem extract_tags_any_false (text : String) (kws : List String)
    (hk : ∀ t ∈ allowedTags, kws.contains t = false) :
    (extract_tags text).any (fun t => kws.contains t) = false := by
  rw [List.any_eq_false]
  intro t ht
  intro hc
  have h1 := hk t (extract_tags_mem_allowed text t ht)
  rw [hc] at h1
  exact Bool.noConfusion h1

/-- Looking up the key just set in a dict. -/
theorem dictLookup_set_self (d : List (String × MValue)) (k : String) (v : MValue) :
    dictLookup (dictSet d k v) k = some v := by
  induction d with
  | nil => simp [dictSet, dictLookup]
  | cons kv rest ih =>
    rw [dictSet]
    by_cases h : kv.1 = k
    · rw [if_pos h, dictLookup, if_pos rfl]
    · rw [if_neg h, dictLookup, if_neg h]
      exact ih

/-- Setting one key leaves lookups of other keys unchanged. -/
theorem dictLookup_set_other (d : List (String × MValue)) (k : String) (v : MValue)
    (k' : String) (h : k ≠ k') :
    dictLookup (dictSet d k v) k' = dictLookup d k' := by
  induction d with
  | nil => simp [dictSet, dictLookup, h]
  | cons kv rest ih =>
    rw [dictSet]
    by_cases hk : kv.1 = k
    · rw [if_pos hk, dictLookup, if_neg h, dictLookup, hk, if_neg h]
    · rw [if_neg hk, dictLookup, dictLookup]
      by_cases hk' : kv.1 = k'
      · rw [if_pos hk', if_pos hk']
      · rw [if_neg hk', if_neg hk']
        exact ih

/-- Key presence after a dict assignment. -/
theorem dictLookup_set_isSome (d : List (String × MValue)) (k : String) (v : MValue)
    (k' : String) :
    (dictLookup (dictSet d k v) k').isSome =
      ((dictLookup d k').isSome || decide (k' = k)) := by
  by_cases h : k = k'
  · subst h
    rw [dictLookup_set_self]
    simp
  · rw [dictLookup_set_other d k v k' h]
    have h' : ¬(k' = k) := fun hh => h hh.symm
    simp [h']

/-- Unrolling the accumulator loop of `enhance_qa_pairs` into the
per-pair concatenation the spec describes. -/
theorem enhance_foldl (ps : List QAPair) :
    ∀ acc : List QAPair,
      ps.foldl
        (fun acc qa =>
          acc ++ [qa] ++ generate_question_variations qa.question qa.answer ++
            generate_followup_questions qa.question qa.answer)
        acc = acc ++ enrichQAPairs_spec ps := by
  induction ps with
  | nil => intro acc; simp [enrichQAPairs_spec]
  | cons qa rest ih =>
    intro acc
    rw [List.foldl_cons, ih, enrichQAPairs_spec]
    simp [List.append_assoc]

/-! ### Claim theorems -/

/-- Claim C1, counterexample: the spec's end-to-end example is wrong on
the code.  With the segmentation collaborator returning the two
sentences in order, `process_text` emits no ChunkRecord at all (not one
record with the treatment question): each sentence ends in `.`, so the
chunk-completion test fires after every single sentence, and each
one-sentence chunk is under 50 characters. -/
theorem c1_example_counterexample :
    process_sentences ["Canine parvovirus causes vomiting and diarrhea.",
      "Treatment includes fluid therapy and antiemetics."] = [] := by decide

/-- Claim C1, amended: processing the example page text yields no
ChunkRecord, because each of the two sentences completes a chunk by
itself (it ends with a period), the joined one-sentence texts have
lengths 47 and 49, both under the 50-character minimum, so
`create_qa_pair` returns none both times. -/
theorem c1_example_amended :
    is_chunk_complete ["Canine parvovirus causes vomiting and diarrhea."] = true ∧
    is_chunk_complete ["Treatment includes fluid therapy and antiemetics."] = true ∧
    (joinSpace ["Canine parvovirus causes vomiting and diarrhea."]).length = 47 ∧
    (joinSpace ["Treatment includes fluid therapy and antiemetics."]).length = 49 ∧
    create_qa_pair ["Canine parvovirus causes vomiting and diarrhea."] = none ∧
    create_qa_pair ["Treatment includes fluid therapy and antiemetics."] = none ∧
    process_sentences ["Canine parvovirus causes vomiting and diarrhea.",
      "Treatment includes fluid therapy and antiemetics."] = [] := by
  refine ⟨?_, ?_, ?_, ?_, ?_, ?_, ?_⟩ <;> decide

/-- Claim C2, counterexample: on the example text the species tag
emitted by the code is `"dog"` (the key of `species_mapping`), not
`"dogs"` as the claim states, so the result set is not
`{dogs, symptoms}`. -/
theorem c2_counterexample :
    extract_tags "Dogs often show canine distemper symptoms" = ["dog", "symptoms"] ∧
    "dogs" ∉ extract_tags "Dogs often show canine distemper symptoms" :=
  ⟨by decide, by decide⟩

/-- Claim C2, amended: under any set enumeration the tag list is
duplicate-free (so each species tag appears at most once however many
keyword variants occur), and on the example text its elements are
exactly `{dog, symptoms}` (a permutation of the canonical listing,
whatever order the interpreter enumerates the set in). -/
theorem c2_tags_set_amended (e : List String → List String)
    (he : ∀ l : List String, (e l).Perm l) :
    (∀ text, (extract_tags_with e text).Nodup) ∧
    (extract_tags_with e "Dogs often show canine distemper symptoms").Perm
      ["dog", "symptoms"] := by
  constructor
  · intro text
    exact ((he (extract_tags text)).nodup_iff).mpr (extract_tags_nodup text)
  · exact (he _).trans (by decide)

/-- Claim C2, witness: the amended statement at the identity
enumeration on the example text. -/
theorem c2_tags_set_amended_witness :
    (extract_tags_with id "Dogs often show canine distemper symptoms").Nodup ∧
    (extract_tags_with id "Dogs often show canine distemper symptoms").Perm
      ["dog", "symptoms"] := by
  have h := c2_tags_set_amended id (fun l => List.Perm.refl l)
  exact ⟨h.1 "Dogs often show canine distemper symptoms", h.2⟩

/-- Claim C3, counterexample: the pipeline's output is not a pure
function of the input document.  `extract_tags` returns `list(tags)`
for a Python `set`, whose enumeration order is interpreter state, not
input; two valid enumerations of the same tag set (here: reversal,
which is a permutation, as the first conjunct certifies) give two
different pipeline outputs on the same sentence list, so two runs need
not be byte-identical. -/
theorem c3_counterexample :
    ((extract_tags "Treatment of canine parvovirus includes fluid therapy.").reverse).Perm
      (extract_tags "Treatment of canine parvovirus includes fluid therapy.") ∧
    process_sentences_with List.reverse
        ["Treatment of canine parvovirus includes fluid therapy."] ≠
      process_sentences_with id
        ["Treatment of canine parvovirus includes fluid therapy."] :=
  ⟨List.reverse_perm _, by decide⟩

/-- Claim C3, amended: the pipeline is deterministic up to the order of
each record's tag list.  Any two runs (any two valid set enumerations)
produce outputs of the same length whose corresponding records agree on
source text, Q&A pairs, context, source type and confidence, and whose
tag lists are permutations of each other. -/
theorem c3_deterministic_up_to_tag_order (e1 e2 : List String → List String)
    (h1 : ∀ l : List String, (e1 l).Perm l) (h2 : ∀ l : List String, (e2 l).Perm l)
    (sentences : List String) :
    List.Forall₂ sameUpToTagOrder (process_sentences_with e1 sentences)
      (process_sentences_with e2 sentences) := by
  rw [process_sentences_with, process_sentences_with, processLoop_with_eq e1 sentences [],
    processLoop_with_eq e2 sentences []]
  induction processLoop_with id [] sentences with
  | nil => exact List.Forall₂.nil
  | cons r rs ih =>
    rw [List.map_cons, List.map_cons]
    refine List.Forall₂.cons ?_ ih
    show sameUpToTagOrder (mapRecTags e1 r) (mapRecTags e2 r)
    unfold sameUpToTagOrder
    exact ⟨rfl, rfl, rfl, rfl, rfl, (h1 _).trans (h2 _).symm⟩

/-- Claim C3, witness: the amended statement for the identity and the
reversal enumerations on a concrete one-sentence document. -/
theorem c3_deterministic_witness :
    List.Forall₂ sameUpToTagOrder
      (process_sentences_with id ["Treatment of canine parvovirus includes fluid therapy."])
      (process_sentences_with List.reverse
        ["Treatment of canine parvovirus includes fluid therapy."]) :=
  c3_deterministic_up_to_tag_order id List.reverse (fun l => List.Perm.refl l)
    (fun l => List.reverse_perm l)
    ["Treatment of canine parvovirus includes fluid therapy."]

/-- Claim C4: every record emitted by `create_qa_pair`, and hence every
record in the output of `process_text`, has a nonempty `qa_pairs`
list — a chunk for which Q&A generation produced nothing is dropped. -/
theorem c4_records_have_qa (sentences : List String) (r : ChunkRecord)
    (h : create_qa_pair sentences = some r ∨ r ∈ process_sentences sentences) :
    r.qa_pairs ≠ [] := by
  rcases h with h | h
  · exact create_qa_pair_qa_ne_nil sentences r h
  · obtain ⟨b, hb⟩ := processLoop_mem_create sentences [] r h
    exact create_qa_pair_qa_ne_nil b r hb

/-- Claim C4, witness: a concrete sentence whose chunk is emitted, with
its (nonempty) Q&A list. -/
theorem c4_records_have_qa_witness :
    create_qa_pair ["Treatment of canine parvovirus includes fluid therapy."] =
      some { source_text := "Treatment of canine parvovirus includes fluid therapy."
             qa_pairs := [⟨"What are the recommended treatment approaches or management strategies?",
                           "Treatment of canine parvovirus includes fluid therapy."⟩]
             metadata := { tags := ["dog", "treatment"], context := "general",
                           source_type := "textbook", confidence := "low" } } ∧
    ({ source_text := "Treatment of canine parvovirus includes fluid therapy."
       qa_pairs := [⟨"What are the recommended treatment approaches or management strategies?",
                     "Treatment of canine parvovirus includes fluid therapy."⟩]
       metadata := { tags := ["dog", "treatment"], context := "general",
                     source_type := "textbook", confidence := "low" } } : ChunkRecord).qa_pairs ≠
      [] := by
  constructor
  · decide
  · exact c4_records_have_qa ["Treatment of canine parvovirus includes fluid therapy."] _
      (Or.inl (by decide))

/-- Claim C5: whenever joining the sentence buffer with single spaces
gives a text under 50 characters, `create_qa_pair` returns none. -/
theorem c5_short_text_none (sentences : List String)
    (h : (joinSpace sentences).length < 50) : create_qa_pair sentences = none := by
  rw [create_qa_pair, create_qa_pair_with, if_pos h]

/-- Claim C5, witness: a concrete short buffer is rejected. -/
theorem c5_short_text_none_witness :
    (joinSpace ["short"]).length < 50 ∧ create_qa_pair ["short"] = none :=
  ⟨by decide, c5_short_text_none ["short"] (by decide)⟩

/-- Claim C6: the enrichment loop emits, for each original pair in
input order, the pair itself, then its variations, then its follow-ups
(`enrichQAPairs_spec` is that per-pair concatenation written from the
spec); in particular the original pairs are an order-preserving
subsequence of the output. -/
theorem c6_enrich_order (ps : List QAPair) :
    enhance_qa_pairs ps = enrichQAPairs_spec ps ∧
    List.Sublist ps (enhance_qa_pairs ps) := by
  have h1 : enhance_qa_pairs ps = enrichQAPairs_spec ps := by
    rw [enhance_qa_pairs, enhance_foldl ps []]
    exact List.nil_append _
  have hs : List.Sublist ps (enrichQAPairs_spec ps) := by
    clear h1
    induction ps with
    | nil => exact List.nil_sublist _
    | cons qa rest ih =>
      rw [enrichQAPairs_spec, List.cons_append]
      exact List.Sublist.cons₂ qa (List.Sublist.trans ih (List.sublist_append_right _ _))
  exact ⟨h1, by rw [h1]; exact hs⟩

/-- Claim C7, counterexample: for the answer `"therapy."` the split
produces the fragments `["therapy", ""]`, the empty fragment matches no
treatment keyword, yet the follow-up answer is `"therapy."` — exactly
the full answer, contradicting "never the full answer when the full
answer has non-matching fragments". -/
theorem c7_counterexample :
    containsAny (lowerStr "therapy.") ["treat", "medication", "therapy"] = true ∧
    splitDot "therapy.".toList = [['t', 'h', 'e', 'r', 'a', 'p', 'y'], []] ∧
    (splitDot "therapy.".toList).any (fun f => !fragMatchesT f) = true ∧
    generate_followup_questions "Q" "therapy." =
      [⟨"What are the treatment options?", "therapy."⟩] :=
  ⟨by decide, by decide, by decide, by decide⟩

/-- Claim C7, amended: when the lowercased answer contains a treatment
keyword, the follow-ups include the pair whose answer is
`extract_treatment_info` of the answer (split on `.`, keep matching
fragments, rejoin with `. ` plus a trailing `.`, empty if none match);
and that extracted answer differs from the full answer whenever some
nonempty fragment matches no keyword (when the only non-matching
fragments are empty — e.g. the answer `"therapy."` — the extract can
equal the full answer). -/
theorem c7_followup_extracted (question answer : String)
    (h : containsAny (lowerStr answer) ["treat", "medication", "therapy"] = true) :
    (⟨"What are the treatment options?", extract_treatment_info answer⟩ : QAPair) ∈
      generate_followup_questions question answer ∧
    ((splitDot answer.toList).any (fun f => !f.isEmpty && !fragMatchesT f) = true →
      extract_treatment_info answer ≠ answer) := by
  constructor
  · rw [generate_followup_questions, if_pos h]
    exact List.mem_append_left _ (List.mem_cons_self _ _)
  · exact fun hne => extract_treatment_info_ne_self answer hne

/-- Claim C7, witness: a concrete answer with a non-matching sentence;
the follow-up answer keeps only the matching fragment and differs from
the full answer. -/
theorem c7_followup_extracted_witness :
    (⟨"What are the treatment options?",
      extract_treatment_info "Use fluid therapy. Dogs recover."⟩ : QAPair) ∈
      generate_followup_questions "Q" "Use fluid therapy. Dogs recover." ∧
    extract_treatment_info "Use fluid therapy. Dogs recover." ≠
      "Use fluid therapy. Dogs recover." ∧
    extract_treatment_info "Use fluid therapy. Dogs recover." = "Use fluid therapy." := by
  have h := c7_followup_extracted "Q" "Use fluid therapy. Dogs recover." (by decide)
  exact ⟨h.1, h.2 (by decide), by decide⟩

/-- Claim C8: the categorizer returns the first category, in table
order diseases, behavior, emergency, preventive, breeds, one of whose
keywords occurs in the lowercased text, and `"general"` when none
does. -/
theorem c8_categorize_first_match (text : String) :
    categorize_content text =
      (if containsAny (lowerStr text) ["symptom", "disease", "condition", "infection"] then
        "diseases"
       else if containsAny (lowerStr text) ["behavior", "training", "anxiety", "stress"] then
        "behavior"
       else if containsAny (lowerStr text) ["emergency", "urgent", "immediate", "critical"] then
        "emergency"
       else if containsAny (lowerStr text) ["prevent", "vaccination", "nutrition", "diet"] then
        "preventive"
       else if containsAny (lowerStr text) ["breed", "purebred", "mixed breed"] then
        "breeds"
       else "general") := rfl

/-- Claim C9, counterexample: a pre-existing `complexity` key does not
keep its original value — `enhance_metadata` overwrites it — so "every
original key keeps its original value" fails. -/
theorem c9_counterexample :
    dictLookup [("complexity", MValue.str "original")] "complexity" =
      some (MValue.str "original") ∧
    dictLookup (enhance_metadata [("complexity", MValue.str "original")]) "complexity" =
      some (MValue.str "basic") :=
  ⟨by decide, by decide⟩

/-- Claim C9, amended: `enhance_metadata` keeps every key other than
`complexity` and `content_type` at its original value, sets (adding or
overwriting) `complexity` and `content_type` from the original tags by
the claimed rules, and adds no other key. -/
theorem c9_enhance_metadata_frame (md : List (String × MValue)) :
    (∀ k, k ≠ "complexity" → k ≠ "content_type" →
      dictLookup (enhance_metadata md) k = dictLookup md k) ∧
    dictLookup (enhance_metadata md) "complexity" =
      some (.str (if (getTags md).any
          (fun t => (["emergency", "critical", "urgent"] : List String).contains t) then
            "high"
        else if (getTags md).any
          (fun t => (["medical", "clinical", "diagnostic"] : List String).contains t) then
            "medium"
        else "basic")) ∧
    dictLookup (enhance_metadata md) "content_type" =
      some (.str (if (getTags md).contains "emergency" then "emergency"
        else if (getTags md).contains "medical" then "medical"
        else if (getTags md).contains "behavior" then "behavioral"
        else "general")) ∧
    (∀ k, (dictLookup (enhance_metadata md) k).isSome =
      ((dictLookup md k).isSome || decide (k = "complexity") || decide (k = "content_type"))) := by
  refine ⟨?_, ?_, ?_, ?_⟩
  · intro k hk1 hk2
    rw [enhance_metadata, dictLookup_set_other _ _ _ _ (fun hh => hk2 hh.symm),
      dictLookup_set_other _ _ _ _ (fun hh => hk1 hh.symm)]
  · rw [enhance_metadata, dictLookup_set_other _ _ _ _ (by decide), dictLookup_set_self]
    rfl
  · rw [enhance_metadata, dictLookup_set_self]
    rfl
  · intro k
    rw [enhance_metadata, dictLookup_set_isSome, dictLookup_set_isSome]

/-- Claim C9, witness: on a concrete dict the `tags` key is preserved
and `complexity` is computed. -/
theorem c9_enhance_metadata_frame_witness :
    dictLookup (enhance_metadata [("tags", MValue.strList ["dog"])]) "tags" =
      dictLookup [("tags", MValue.strList ["dog"])] "tags" ∧
    dictLookup (enhance_metadata [("tags", MValue.strList ["dog"])]) "complexity" =
      some (MValue.str "basic") := by
  have h := c9_enhance_metadata_frame [("tags", MValue.strList ["dog"])]
  exact ⟨h.1 "tags" (by decide) (by decide), h.2.1.trans (by decide)⟩

/-- Claim C10: every tag the extractor can emit lies in the fixed
vocabulary of five species names plus `symptoms` and `treatment`; that
vocabulary is disjoint from both complexity keyword sets and from the
content-type trigger tags; hence the enricher always assigns
`complexity = basic` and `content_type = general` to extractor
metadata. -/
theorem c10_extractor_tags_basic (text ctx conf : String) :
    (extract_tags text).all (fun t => allowedTags.contains t) = true ∧
    allowedTags.all (fun t =>
      !(["emergency", "critical", "urgent"] : List String).contains t &&
      !(["medical", "clinical", "diagnostic"] : List String).contains t &&
      !(["emergency", "medical", "behavior"] : List String).contains t) = true ∧
    determine_complexity (extract_tags text) = "basic" ∧
    determine_content_type (extract_tags text) = "general" ∧
    dictLookup (enhance_metadata (extractor_metadata_dict (extract_tags text) ctx conf))
      "complexity" = some (.str "basic") ∧
    dictLookup (enhance_metadata (extractor_metadata_dict (extract_tags text) ctx conf))
      "content_type" = some (.str "general") := by
  have hc1 : ¬((extract_tags text).any
      (fun t => (["emergency", "critical", "urgent"] : List String).contains t) = true) := by
    rw [extract_tags_any_false text _ (by decide)]
    exact Bool.false_ne_true
  have hc2 : ¬((extract_tags text).any
      (fun t => (["medical", "clinical", "diagnostic"] : List String).contains t) = true) := by
    rw [extract_tags_any_false text _ (by decide)]
    exact Bool.false_ne_true
  have hbasic : determine_complexity (extract_tags text) = "basic" := by
    rw [determine_complexity, if_neg hc1, if_neg hc2]
  have hnm : ∀ s : String, s ∉ allowedTags →
      ¬((extract_tags text).contains s = true) := by
    intro s hs hcc
    exact hs (extract_tags_mem_allowed text s (List.mem_of_elem_eq_true hcc))
  have hgeneral : determine_content_type (extract_tags text) = "general" := by
    rw [determine_content_type, if_neg (hnm "emergency" (by decide)),
      if_neg (hnm "medical" (by decide)), if_neg (hnm "behavior" (by decide))]
  have hg : getTags (extractor_metadata_dict (extract_tags text) ctx conf) =
      extract_tags text := rfl
  have hl1 : dictLookup (enhance_metadata (extractor_metadata_dict (extract_tags text) ctx conf))
      "complexity" =
      some (.str (determine_complexity (extract_tags text))) := by
    rw [enhance_metadata, dictLookup_set_other _ _ _ _ (by decide), dictLookup_set_self, hg]
  have hl2 : dictLookup (enhance_metadata (extractor_metadata_dict (extract_tags text) ctx conf))
      "content_type" =
      some (.str (determine_content_type (extract_tags text))) := by
    rw [enhance_metadata, dictLookup_set_self, hg]
  refine ⟨?_, by decide, hbasic, hgeneral, ?_, ?_⟩
  · rw [List.all_eq_true]
    intro t ht
    exact List.elem_eq_true_of_mem (extract_tags_mem_allowed text t ht)
  · rw [hl1, hbasic]
  · rw [hl2, hgeneral]
